import Mathlib

/-!
Verification of the grid-level state machine shared by the scripts of this
repository (src/SOL.py, src/sol_usdt_success.py, src/sol_usdt_positive.py,
src/sol_po.py).  Prices and quantities are modelled as rationals; the
exchange is abstracted away: a buy intent carries the quote (USDT) amount
requested and a sell intent the base quantity requested, and reported fill
quantities are passed in as parameters.
-/

/-- Order side of an emitted intent. -/
inductive Side where
  | buy
  | sell
deriving DecidableEq, Repr

/-- An abstract order intent: side, grid level, and amount
(quote USDT amount for buys, base-currency quantity for sells). -/
structure Intent where
  side : Side
  level : ℤ
  amt : ℚ
deriving DecidableEq, Repr

/-! Python dicts keyed by an integer level are modelled as association
lists in insertion order (CPython dicts preserve insertion order). -/

/-- First value bound to `k`, if any. -/
def dfind {α : Type} (h : List (ℤ × α)) (k : ℤ) : Option α :=
  match h with
  | [] => none
  | (k', v) :: t => if k' = k then some v else dfind t k

/-- `d.get(k, 0.0)` on a quantity dict. -/
def dget (h : List (ℤ × ℚ)) (k : ℤ) : ℚ :=
  (dfind h k).getD 0

/-- `d[k] = v`: overwrite the binding in place, else append. -/
def dset {α : Type} (h : List (ℤ × α)) (k : ℤ) (v : α) : List (ℤ × α) :=
  match h with
  | [] => [(k, v)]
  | (k', v') :: t => if k' = k then (k, v) :: t else (k', v') :: dset t k v

/-- `d.pop(k, None)`. -/
def dpop {α : Type} (h : List (ℤ × α)) (k : ℤ) : List (ℤ × α) :=
  h.filter (fun p => p.1 ≠ k)

/-- `list(d.keys())`. -/
def dkeys {α : Type} (h : List (ℤ × α)) : List ℤ :=
  h.map Prod.fst

/-- State of `GridCaseD` (src/SOL.py).  `minSz` is the exchange minimum
lot, `unit` the per-level quote amount (`unit_usdt`), and `buyFill` the
base quantity the exchange reports filled for one unit market buy
(`_buy_unit`); market sells are modelled as fully filled. -/
structure GridCaseD where
  lower : ℚ
  upper : ℚ
  minSz : ℚ
  unit : ℚ
  buyFill : ℚ
  held : List (ℤ × ℚ)
  prev_level : ℤ
deriving DecidableEq, Repr

namespace GridCaseD

/-- `GridCaseD.price_to_level` (src/SOL.py, lines 144-149): 0 at or below
the lower bound, 10 at or above the upper bound, otherwise the floor of
the relative position scaled to 10 levels, clamped to `[0, 10]`. -/
def price_to_level (lower upper px : ℚ) : ℤ :=
  if px ≤ lower then 0
  else if upper ≤ px then 10
  else
    let rel := (px - lower) / (upper - lower)
    let lv := ⌊rel * 10⌋
    max 0 (min 10 lv)

/-- `GridCaseD._sell_qty` (src/SOL.py, lines 176-200): quantities below
`minSz` are skipped (no order, zero filled); otherwise the market sell is
placed and modelled as fully filled.  Returns the filled quantity and the
emitted intent. -/
def sell_qty (minSz : ℚ) (level : ℤ) (qty : ℚ) : ℚ × List Intent :=
  if qty < minSz then (0, [])
  else (qty, [⟨Side.sell, level, qty⟩])

/-- One upward iteration of the `GridCaseD.on_price` walk (src/SOL.py,
lines 211-219): buy the new level `nxt = cur + 1`, then, if the ledger
holds a positive quantity at `cur`, sell it and drop the entry when the
remaining quantity is not positive. -/
def upStep (s : GridCaseD) (cur : ℤ) : GridCaseD × List Intent :=
  let nxt := cur + 1
  let held1 := dset s.held nxt (dget s.held nxt + s.buyFill)
  let buyI : Intent := ⟨Side.buy, nxt, s.unit⟩
  if cur ∈ dkeys held1 ∧ 0 < dget held1 cur then
    let q := dget held1 cur
    let r := sell_qty s.minSz cur q
    let v := max 0 (q - r.1)
    let held2 := if v ≤ 0 then dpop (dset held1 cur v) cur else dset held1 cur v
    ({ s with held := held2 }, buyI :: r.2)
  else ({ s with held := held1 }, [buyI])

/-- One downward iteration of the walk (src/SOL.py, lines 220-225): buy
the new lower level `nxt = cur - 1` only if it is not already held. -/
def downStep (s : GridCaseD) (cur : ℤ) : GridCaseD × List Intent :=
  let nxt := cur - 1
  if dget s.held nxt ≤ 0 then
    ({ s with held := dset s.held nxt (dget s.held nxt + s.buyFill) },
     [⟨Side.buy, nxt, s.unit⟩])
  else (s, [])

/-- `n` upward iterations starting from level `cur`. -/
def upWalk (s : GridCaseD) (cur : ℤ) : ℕ → GridCaseD × List Intent
  | 0 => (s, [])
  | n + 1 =>
    let r1 := upStep s cur
    let r2 := upWalk r1.1 (cur + 1) n
    (r2.1, r1.2 ++ r2.2)

/-- `n` downward iterations starting from level `cur`. -/
def downWalk (s : GridCaseD) (cur : ℤ) : ℕ → GridCaseD × List Intent
  | 0 => (s, [])
  | n + 1 =>
    let r1 := downStep s cur
    let r2 := downWalk r1.1 (cur - 1) n
    (r2.1, r1.2 ++ r2.2)

/-- The held levels sorted descending, as `sorted(list(held.keys()),
reverse=True)` in `GridCaseD.flatten_all`. -/
def sortedKeysDesc (h : List (ℤ × ℚ)) : List ℤ :=
  (dkeys h).insertionSort (· ≥ ·)

/-- Loop body of `GridCaseD.flatten_all` (src/SOL.py, lines 236-243) over
a snapshot of the held levels: sell each positive quantity (dust sells
are skipped by `_sell_qty` and their entries remain). -/
def flattenLoop (s : GridCaseD) : List ℤ → GridCaseD × List Intent
  | [] => (s, [])
  | lv :: rest =>
    let qty := dget s.held lv
    if 0 < qty then
      let r := sell_qty s.minSz lv qty
      let v := max 0 (qty - r.1)
      let held2 := if v ≤ 0 then dpop (dset s.held lv v) lv else dset s.held lv v
      let r2 := flattenLoop { s with held := held2 } rest
      (r2.1, r.2 ++ r2.2)
    else flattenLoop s rest

/-- `GridCaseD.flatten_all`: iterate the descending-sorted snapshot of
the held levels. -/
def flatten_all (s : GridCaseD) : GridCaseD × List Intent :=
  flattenLoop s (sortedKeysDesc s.held)

/-- `GridCaseD.on_price` (src/SOL.py, lines 203-234): map the price to a
level, walk one level at a time from `prev_level` to it, then record the
new level; on hitting L0/L10 flatten everything (the script then raises
SystemExit, so the real program makes no further calls). -/
def on_price (s : GridCaseD) (px : ℚ) : GridCaseD × List Intent :=
  let lv := price_to_level s.lower s.upper px
  if lv = s.prev_level then (s, [])
  else
    let r1 :=
      if s.prev_level < lv then upWalk s s.prev_level (lv - s.prev_level).toNat
      else downWalk s s.prev_level (s.prev_level - lv).toNat
    let s2 := { r1.1 with prev_level := lv }
    if lv = 0 ∨ lv = 10 then
      let r3 := flatten_all s2
      (r3.1, r1.2 ++ r3.2)
    else (s2, r1.2)

/-- `GridCaseD.__init__` (src/SOL.py, lines 120-141): bounds are a
symmetric percentage band around the start price, the ledger starts with
the reported fill of the initial unit buy at level 5. -/
def init (grid_range unit minSz buyFill center : ℚ) : GridCaseD :=
  { lower := center * (1 - grid_range)
    upper := center * (1 + grid_range)
    minSz := minSz
    unit := unit
    buyFill := buyFill
    held := dset [] 5 (dget [] 5 + buyFill)
    prev_level := 5 }

end GridCaseD

/-- A per-level position of `Grid` in src/sol_usdt_success.py: reconciled
quantity and entry price (the stored `ordId` is exchange bookkeeping the
strategy logic never reads). -/
structure SPos where
  qty : ℚ
  entry_px : ℚ
deriving DecidableEq, Repr

/-- State of `Grid` (src/sol_usdt_success.py): bounds, the per-level
position dict, and the activity flag. -/
structure GridS where
  gmin : ℚ
  gmax : ℚ
  positions : List (ℤ × SPos)
  active : Bool
deriving DecidableEq, Repr

namespace GridS

/-- Python `round`: round half to even (banker's rounding). -/
def pyRound (q : ℚ) : ℤ :=
  let f := ⌊q⌋
  let r := q - f
  if r < 1/2 then f
  else if 1/2 < r then f + 1
  else if Even f then f else f + 1

/-- `Grid.level_of` (src/sol_usdt_success.py, lines 150-154): nearest
rounding of the relative position scaled to 10 levels. -/
def level_of (gmin gmax px : ℚ) : ℤ :=
  if px ≤ gmin then 0
  else if gmax ≤ px then 10
  else pyRound ((px - gmin) / (gmax - gmin) * 10)

/-- `Grid._open_if_absent` (src/sol_usdt_success.py, lines 156-178):
skip when inactive, when the level is already held, or when the USDT
balance `bal` is below 10; otherwise buy `bal / SLOTS` and record the
reported fill `fill` (falling back to `unit / px` when no fill is
reported). -/
def open_if_absent (bal fill : ℚ) (s : GridS) (lvl : ℤ) (px : ℚ) :
    GridS × List Intent :=
  if s.active = false then (s, [])
  else if lvl ∈ dkeys s.positions then (s, [])
  else if bal < 10 then (s, [])
  else
    let unit := bal / 10
    let qty_real := if fill ≤ 0 then unit / px else fill
    ({ s with positions := dset s.positions lvl ⟨qty_real, px⟩ },
     [⟨Side.buy, lvl, unit⟩])

/-- `Grid._close` (src/sol_usdt_success.py, lines 180-190): no-op when
the level is not held; when instrument rules are known and the held
quantity is below `minSz`, the entry is dropped without a sell order;
otherwise the quantity is sold and the entry dropped. -/
def close (rules : Option ℚ) (s : GridS) (lvl : ℤ) : GridS × List Intent :=
  match dfind s.positions lvl with
  | none => (s, [])
  | some p =>
    match rules with
    | some minSz =>
      if p.qty < minSz then ({ s with positions := dpop s.positions lvl }, [])
      else ({ s with positions := dpop s.positions lvl }, [⟨Side.sell, lvl, p.qty⟩])
    | none => ({ s with positions := dpop s.positions lvl }, [⟨Side.sell, lvl, p.qty⟩])

/-- Close every level of a key-snapshot in order. -/
def closeList (rules : Option ℚ) (s : GridS) : List ℤ → GridS × List Intent
  | [] => (s, [])
  | lv :: rest =>
    let r1 := close rules s lv
    let r2 := closeList rules r1.1 rest
    (r2.1, r1.2 ++ r2.2)

/-- `Grid._close_all` (src/sol_usdt_success.py, lines 192-196): close
every held level (dict iteration order) and deactivate the grid. -/
def close_all (rules : Option ℚ) (s : GridS) : GridS × List Intent :=
  let r := closeList rules s (dkeys s.positions)
  ({ r.1 with active := false }, r.2)

/-- `Grid.on_price` (src/sol_usdt_success.py, lines 198-221): inactive
grids ignore the price; level 10 first closes the held levels in 5..9 and
then everything; level 0 closes everything; otherwise any position one
level above the new level is closed (the down-sell rule `score == -1`), a
new lower level in 1..4 is opened if absent, and on the up side every
level in `5..min(lvl, 9)` is opened if absent. -/
def on_price (rules : Option ℚ) (bal fill : ℚ) (s : GridS) (px : ℚ) :
    GridS × List Intent :=
  if s.active = false then (s, [])
  else
    let lvl := level_of s.gmin s.gmax px
    if lvl = 10 then
      let ks := (dkeys s.positions).filter (fun lv => 5 ≤ lv ∧ lv ≤ 9)
      let r1 := closeList rules s ks
      let r2 := close_all rules r1.1
      (r2.1, r1.2 ++ r2.2)
    else if lvl = 0 then close_all rules s
    else
      let ks := (dkeys s.positions).filter (fun lv => lvl - lv = -1)
      let r1 := closeList rules s ks
      let r2 :=
        if 1 ≤ lvl ∧ lvl < 5 then open_if_absent bal fill r1.1 lvl px
        else (r1.1, [])
      let r3 :=
        if 5 < lvl then
          (List.range ((min lvl 9).toNat + 1 - 5)).foldl
            (fun (acc : GridS × List Intent) i =>
              let r := open_if_absent bal fill acc.1 (5 + i) px
              (r.1, acc.2 ++ r.2))
            (r2.1, [])
        else (r2.1, [])
      (r3.1, r1.2 ++ r2.2 ++ r3.2)

/-- `Grid.__init__` (src/sol_usdt_success.py, lines 137-148): a band of
`±GRID_RANGE` (0.003) around `p0` split into 10 slots, then the initial
open at level 5. -/
def init (bal fill p0 : ℚ) : GridS × List Intent :=
  let step := p0 * ((3/1000) / 5)
  let s : GridS :=
    { gmin := p0 - 5 * step, gmax := p0 + 5 * step, positions := [], active := true }
  open_if_absent bal fill s 5 p0

end GridS

namespace GridP

/-- Truncation toward zero, as `Decimal.to_integral_value(ROUND_DOWN)`. -/
def ratTrunc (q : ℚ) : ℤ :=
  if 0 ≤ q then ⌊q⌋ else ⌈q⌉

/-- `quantize_size` (src/sol_usdt_positive.py, lines 114-116): truncate a
base quantity down to a multiple of the lot size. -/
def quantize_size (sz lotSz : ℚ) : ℚ :=
  ratTrunc (sz / lotSz) * lotSz

/-- Quote amount of `Grid.calc_order_size` (src/sol_usdt_positive.py,
lines 162-171) in balance-percentage mode (`USE_BALANCE_PERCENT = True`,
`BALANCE_PCT_PER_ORDER = 0.10`, `MIN_NOTIONAL_USDT = 5.0`): the computed
percentage of the balance, floored at the minimum notional by `max`. -/
def usdt_amount (bal : ℚ) : ℚ :=
  max (bal * (1/10)) 5

/-- `Grid.calc_order_size` (src/sol_usdt_positive.py, lines 162-171):
convert the quote amount into a lot-quantized base size; the caller
`Grid.on_price` places a buy exactly when this is positive. -/
def calc_order_size (bal ref_price lotSz : ℚ) : ℚ :=
  quantize_size (usdt_amount bal / ref_price) lotSz

end GridP

namespace SolPo

/-- `round_to_step` (src/sol_po.py, lines 131-134): floor to a multiple
of `step` with the source's `1e-12` fudge term. -/
def round_to_step (x step : ℚ) : ℚ :=
  if step ≤ 0 then x
  else ⌊x / step + 1/1000000000000⌋ * step

/-- Pure part of `place_limit_order` (src/sol_po.py, lines 136-165):
round the price to the tick, convert the USDT amount to a base size
rounded down to the lot, and raise (`none`) on a nonpositive price or a
size below `minSz` (`ROUND_PRICE_TO_TICK` and `ROUND_SZ_TO_LOT` are both
true).  Returns the rounded price and size on success. -/
def place_limit_order (px usdt tickSz lotSz minSz : ℚ) : Option (ℚ × ℚ) :=
  let px1 := round_to_step px tickSz
  if px1 ≤ 0 then none
  else
    let sz := usdt / px1
    let sz1 := if 0 < lotSz then round_to_step sz lotSz else sz
    if sz1 < minSz then none else some (px1, sz1)

/-- State of `GridState` (src/sol_po.py, lines 168-204): level prices,
the set of held levels, the last level, and the liveness flag. -/
structure GridState where
  usdt_each : ℚ
  px_low : ℚ
  px_high : ℚ
  level_prices : List ℚ
  levels_holding : Finset ℤ
  last_level : ℤ
  alive : Bool
deriving DecidableEq

/-- `GridManager._ensure_level_sold` (src/sol_po.py, lines 261-269): if
the level is held, place a sell slightly above the level's theoretical
price (`MAKER_ONLY = True`, `SLIPPAGE_ALLOW_PCT = 0.0002`) and remove the
level; `none` when `place_limit_order` raises (the level then stays). -/
def ensure_level_sold (tickSz lotSz minSz : ℚ) (g : GridState) (lvl : ℤ) :
    Option (GridState × List Intent) :=
  if lvl ∉ g.levels_holding then some (g, [])
  else
    let target_px := (g.level_prices.getD lvl.toNat 0) * (1 + 1/5000)
    match place_limit_order target_px g.usdt_each tickSz lotSz minSz with
    | none => none
    | some r =>
      some ({ g with levels_holding := g.levels_holding.erase lvl },
            [⟨Side.sell, lvl, r.2⟩])

/-- `GridManager._close_all_levels` (src/sol_po.py, lines 271-279):
liquidate the held levels iterating `sorted(list(levels_holding))` — the
ASCENDING order — catching per-level failures, then mark the grid dead. -/
def close_all_levels (tickSz lotSz minSz : ℚ) (g : GridState) :
    GridState × List Intent :=
  let r := (g.levels_holding.sort (· ≤ ·)).foldl
    (fun (acc : GridState × List Intent) lvl =>
      match ensure_level_sold tickSz lotSz minSz acc.1 lvl with
      | none => acc
      | some r' => (r'.1, acc.2 ++ r'.2))
    (g, [])
  ({ r.1 with alive := false }, r.2)

end SolPo

namespace GridCaseD

/-- Modelled from the spec, §4.1: the interior level is
`round_or_floor((price - lower) / step)` with `step = (upper - lower)/N`,
`N = 10` and floor rounding, clamped to `[0, N]`. -/
def spec_level (lower upper px : ℚ) : ℤ :=
  min 10 (max 0 ⌊(px - lower) / ((upper - lower) / 10)⌋)

/-- Modelled from the spec, §4.4 upward crossing: "emit `Buy(next, unit)`;
if the ledger holds a position at `cur`, emit `Sell(cur,
heldQuantity(cur))`", the sold entry being removed from the ledger
(§4.3 `close`). -/
def specUpStep (s : GridCaseD) (cur : ℤ) : GridCaseD × List Intent :=
  let nxt := cur + 1
  let held1 := dset s.held nxt (dget s.held nxt + s.buyFill)
  if 0 < dget held1 cur then
    ({ s with held := dpop held1 cur },
     [⟨Side.buy, nxt, s.unit⟩, ⟨Side.sell, cur, dget held1 cur⟩])
  else ({ s with held := held1 }, [⟨Side.buy, nxt, s.unit⟩])

/-- Spec-side upward walk: one `specUpStep` per level, never jumping. -/
def specUpWalk (s : GridCaseD) (cur : ℤ) : ℕ → GridCaseD × List Intent
  | 0 => (s, [])
  | n + 1 =>
    let r1 := specUpStep s cur
    let r2 := specUpWalk r1.1 (cur + 1) n
    (r2.1, r1.2 ++ r2.2)

/-- Modelled from the spec, §4.4 downward crossing: "if the ledger does
not already hold a position at `next`, emit `Buy(next, unit)`; nothing is
sold on the way down". -/
def specDownStep (s : GridCaseD) (cur : ℤ) : GridCaseD × List Intent :=
  let nxt := cur - 1
  if ¬ 0 < dget s.held nxt then
    ({ s with held := dset s.held nxt (dget s.held nxt + s.buyFill) },
     [⟨Side.buy, nxt, s.unit⟩])
  else (s, [])

/-- Spec-side downward walk: one `specDownStep` per level. -/
def specDownWalk (s : GridCaseD) (cur : ℤ) : ℕ → GridCaseD × List Intent
  | 0 => (s, [])
  | n + 1 =>
    let r1 := specDownStep s cur
    let r2 := specDownWalk r1.1 (cur - 1) n
    (r2.1, r1.2 ++ r2.2)

end GridCaseD

/-- Every quantity in the ledger is nonnegative and, when positive, at
least the exchange minimum lot: the no-dust regime, in which the
minimum-size skip inside `_sell_qty` never fires. -/
def goodVals (minSz : ℚ) (h : List (ℤ × ℚ)) : Prop :=
  ∀ p ∈ h, 0 ≤ p.2 ∧ (p.2 = 0 ∨ minSz ≤ p.2)

instance (minSz : ℚ) (h : List (ℤ × ℚ)) : Decidable (goodVals minSz h) :=
  List.decidableBAll _ h

/-! Basic facts about the dict model. -/

theorem dget_nil (k : ℤ) : dget [] k = 0 := rfl

theorem dget_cons (k' : ℤ) (v : ℚ) (t : List (ℤ × ℚ)) (k : ℤ) :
    dget ((k', v) :: t) k = if k' = k then v else dget t k := by
  simp only [dget, dfind]
  split <;> rfl

theorem dget_dset_self (h : List (ℤ × ℚ)) (k : ℤ) (v : ℚ) :
    dget (dset h k v) k = v := by
  induction h with
  | nil => simp [dset, dget_cons]
  | cons p t ih =>
    obtain ⟨k', v'⟩ := p
    by_cases hk : k' = k
    · simp [dset, hk, dget_cons]
    · simp [dset, hk, dget_cons, ih]

theorem dget_dset_ne (h : List (ℤ × ℚ)) (k' k : ℤ) (v : ℚ) (hne : k' ≠ k) :
    dget (dset h k' v) k = dget h k := by
  induction h with
  | nil => simp [dset, dget_cons, hne]
  | cons p t ih =>
    obtain ⟨a, b⟩ := p
    by_cases ha : a = k'
    · subst ha
      simp [dset, dget_cons, hne]
    · simp [dset, ha, dget_cons, ih]

theorem dpop_cons (a : ℤ) (b : ℚ) (t : List (ℤ × ℚ)) (k : ℤ) :
    dpop ((a, b) :: t) k = if a = k then dpop t k else (a, b) :: dpop t k := by
  simp only [dpop, List.filter_cons]
  by_cases ha : a = k <;> simp [ha]

theorem dget_dpop_ne (h : List (ℤ × ℚ)) (k' k : ℤ) (hne : k' ≠ k) :
    dget (dpop h k') k = dget h k := by
  induction h with
  | nil => rfl
  | cons p t ih =>
    obtain ⟨a, b⟩ := p
    by_cases ha : a = k'
    · subst ha
      simp [dpop_cons, dget_cons, hne, ih]
    · simp [dpop_cons, ha, dget_cons, ih]

theorem dset_cons {α : Type} (a : ℤ) (b : α) (t : List (ℤ × α)) (k : ℤ) (v : α) :
    dset ((a, b) :: t) k v = if a = k then (k, v) :: t else (a, b) :: dset t k v :=
  rfl

theorem dkeys_cons {α : Type} (a : ℤ) (b : α) (t : List (ℤ × α)) :
    dkeys ((a, b) :: t) = a :: dkeys t := rfl

theorem dfind_eq_none_of_not_mem {α : Type} (h : List (ℤ × α)) (k : ℤ)
    (hk : k ∉ dkeys h) : dfind h k = none := by
  induction h with
  | nil => rfl
  | cons p t ih =>
    obtain ⟨a, b⟩ := p
    rw [dkeys_cons, List.mem_cons] at hk
    push_neg at hk
    simp [dfind, Ne.symm hk.1, ih hk.2]

theorem dget_eq_zero_of_not_mem (h : List (ℤ × ℚ)) (k : ℤ)
    (hk : k ∉ dkeys h) : dget h k = 0 := by
  simp [dget, dfind_eq_none_of_not_mem h k hk]

theorem mem_dkeys_of_dget_pos (h : List (ℤ × ℚ)) (k : ℤ)
    (hpos : 0 < dget h k) : k ∈ dkeys h := by
  by_contra hk
  rw [dget_eq_zero_of_not_mem h k hk] at hpos
  exact lt_irrefl 0 hpos

theorem dget_cases (h : List (ℤ × ℚ)) (k : ℤ) :
    dget h k = 0 ∨ (k, dget h k) ∈ h := by
  induction h with
  | nil => exact Or.inl rfl
  | cons p t ih =>
    obtain ⟨a, b⟩ := p
    by_cases ha : a = k
    · subst ha
      right
      simp [dget_cons]
    · rw [dget_cons, if_neg ha]
      rcases ih with h0 | hm
      · exact Or.inl h0
      · exact Or.inr (List.mem_cons_of_mem _ hm)

theorem goodVals_dget {m : ℚ} {h : List (ℤ × ℚ)} (hg : goodVals m h) (k : ℤ) :
    0 ≤ dget h k ∧ (dget h k = 0 ∨ m ≤ dget h k) := by
  rcases dget_cases h k with h0 | hmem
  · simp [h0]
  · exact hg _ hmem

theorem mem_dset {α : Type} {h : List (ℤ × α)} {k : ℤ} {v : α} {p : ℤ × α}
    (hp : p ∈ dset h k v) : p = (k, v) ∨ p ∈ h := by
  induction h with
  | nil => simpa [dset] using hp
  | cons q t ih =>
    obtain ⟨a, b⟩ := q
    rw [dset_cons] at hp
    by_cases ha : a = k
    · rw [if_pos ha, List.mem_cons] at hp
      rcases hp with hp | hp
      · exact Or.inl hp
      · exact Or.inr (List.mem_cons_of_mem _ hp)
    · rw [if_neg ha, List.mem_cons] at hp
      rcases hp with hp | hp
      · exact Or.inr (hp ▸ List.mem_cons_self _ _)
      · rcases ih hp with hp' | hp'
        · exact Or.inl hp'
        · exact Or.inr (List.mem_cons_of_mem _ hp')

theorem goodVals_dset {m : ℚ} {h : List (ℤ × ℚ)} (hg : goodVals m h)
    (k : ℤ) {v : ℚ} (hv : 0 ≤ v ∧ (v = 0 ∨ m ≤ v)) :
    goodVals m (dset h k v) := by
  intro p hp
  rcases mem_dset hp with hp' | hp'
  · rw [hp']
    exact hv
  · exact hg p hp'

theorem goodVals_dpop {m : ℚ} {h : List (ℤ × ℚ)} (hg : goodVals m h) (k : ℤ) :
    goodVals m (dpop h k) :=
  fun p hp => hg p (List.mem_of_mem_filter hp)

theorem dpop_dset_self (h : List (ℤ × ℚ)) (k : ℤ) (v : ℚ) :
    dpop (dset h k v) k = dpop h k := by
  induction h with
  | nil => simp [dset, dpop_cons]
  | cons p t ih =>
    obtain ⟨a, b⟩ := p
    by_cases ha : a = k
    · simp [dset, ha, dpop_cons]
    · simp [dset, ha, dpop_cons, ih]

theorem dkeys_dset_mem {α : Type} (h : List (ℤ × α)) (k : ℤ) (v : α)
    (hk : k ∈ dkeys h) : dkeys (dset h k v) = dkeys h := by
  induction h with
  | nil => simp [dkeys] at hk
  | cons p t ih =>
    obtain ⟨a, b⟩ := p
    rw [dset_cons]
    by_cases ha : a = k
    · rw [if_pos ha, dkeys_cons, dkeys_cons, ha]
    · rw [dkeys_cons, List.mem_cons] at hk
      rcases hk with hk | hk
      · exact absurd hk.symm ha
      · rw [if_neg ha, dkeys_cons, dkeys_cons, ih hk]

theorem dkeys_dset_not_mem {α : Type} (h : List (ℤ × α)) (k : ℤ) (v : α)
    (hk : k ∉ dkeys h) : dkeys (dset h k v) = dkeys h ++ [k] := by
  induction h with
  | nil => simp [dset, dkeys]
  | cons p t ih =>
    obtain ⟨a, b⟩ := p
    rw [dkeys_cons, List.mem_cons] at hk
    push_neg at hk
    rw [dset_cons, if_neg (Ne.symm hk.1), dkeys_cons, dkeys_cons, ih hk.2,
      List.cons_append]

theorem nodup_dkeys_dset {α : Type} (h : List (ℤ × α)) (k : ℤ) (v : α)
    (hnd : (dkeys h).Nodup) : (dkeys (dset h k v)).Nodup := by
  by_cases hk : k ∈ dkeys h
  · rw [dkeys_dset_mem h k v hk]
    exact hnd
  · rw [dkeys_dset_not_mem h k v hk]
    simp [List.nodup_append, hnd, hk]

theorem dkeys_dpop {α : Type} (h : List (ℤ × α)) (k : ℤ) :
    dkeys (dpop h k) = (dkeys h).filter (fun x => x ≠ k) := by
  induction h with
  | nil => rfl
  | cons p t ih =>
    obtain ⟨a, b⟩ := p
    by_cases ha : a = k <;>
      simp [dpop, dkeys, List.filter_cons, ha] at ih ⊢ <;>
      simpa [dpop, dkeys] using ih

theorem nodup_dkeys_dpop {α : Type} (h : List (ℤ × α)) (k : ℤ)
    (hnd : (dkeys h).Nodup) : (dkeys (dpop h k)).Nodup := by
  rw [dkeys_dpop]
  exact hnd.filter _

namespace GridCaseD

theorem upStep_lower (s : GridCaseD) (cur : ℤ) : (upStep s cur).1.lower = s.lower := by
  rw [upStep]
  split <;> rfl

theorem upStep_upper (s : GridCaseD) (cur : ℤ) : (upStep s cur).1.upper = s.upper := by
  rw [upStep]
  split <;> rfl

theorem upStep_minSz (s : GridCaseD) (cur : ℤ) : (upStep s cur).1.minSz = s.minSz := by
  rw [upStep]
  split <;> rfl

theorem upStep_buyFill (s : GridCaseD) (cur : ℤ) :
    (upStep s cur).1.buyFill = s.buyFill := by
  rw [upStep]
  split <;> rfl

theorem upStep_unit (s : GridCaseD) (cur : ℤ) : (upStep s cur).1.unit = s.unit := by
  rw [upStep]
  split <;> rfl

theorem downStep_eq_specDownStep (s : GridCaseD) (cur : ℤ) :
    downStep s cur = specDownStep s cur := by
  rw [downStep, specDownStep]
  simp only [not_lt]

theorem downWalk_eq_specDownWalk (s : GridCaseD) (cur : ℤ) (n : ℕ) :
    downWalk s cur n = specDownWalk s cur n := by
  induction n generalizing s cur with
  | zero => rfl
  | succ n ih =>
    rw [downWalk, specDownWalk, downStep_eq_specDownStep, ih]

theorem downStep_all_buys (s : GridCaseD) (cur : ℤ) :
    ∀ i ∈ (downStep s cur).2, i.side = Side.buy := by
  rw [downStep]
  split <;> simp

theorem downWalk_all_buys (s : GridCaseD) (cur : ℤ) (n : ℕ) :
    ∀ i ∈ (downWalk s cur n).2, i.side = Side.buy := by
  induction n generalizing s cur with
  | zero => simp [downWalk]
  | succ n ih =>
    rw [downWalk]
    intro i hi
    rcases List.mem_append.mp hi with hi | hi
    · exact downStep_all_buys s cur i hi
    · exact ih _ _ i hi

theorem upStep_eq_specUpStep (s : GridCaseD) (cur : ℤ)
    (hg : goodVals s.minSz s.held) (hm : 0 < s.minSz)
    (hbf : s.minSz ≤ s.buyFill) :
    upStep s cur = specUpStep s cur := by
  simp only [upStep, specUpStep]
  by_cases hq : 0 < dget (dset s.held (cur + 1) (dget s.held (cur + 1) + s.buyFill)) cur
  · have hne : cur + 1 ≠ cur := by omega
    have hsame : dget (dset s.held (cur + 1) (dget s.held (cur + 1) + s.buyFill)) cur
        = dget s.held cur := dget_dset_ne _ _ _ _ hne
    have hmem : cur ∈ dkeys (dset s.held (cur + 1) (dget s.held (cur + 1) + s.buyFill)) :=
      mem_dkeys_of_dget_pos _ _ hq
    rw [if_pos ⟨hmem, hq⟩, if_pos hq]
    have hge : s.minSz ≤ dget s.held cur := by
      rcases (goodVals_dget hg cur).2 with h0 | h1
      · rw [hsame, h0] at hq
        exact absurd hq (lt_irrefl 0)
      · exact h1
    have hnlt : ¬ dget (dset s.held (cur + 1) (dget s.held (cur + 1) + s.buyFill)) cur
        < s.minSz := by
      rw [hsame]
      exact not_lt.mpr hge
    rw [sell_qty, if_neg hnlt]
    simp [dpop_dset_self]
  · rw [if_neg (by intro hc; exact hq hc.2), if_neg hq]

theorem upStep_goodVals (s : GridCaseD) (cur : ℤ)
    (hg : goodVals s.minSz s.held) (hm : 0 < s.minSz)
    (hbf : s.minSz ≤ s.buyFill) :
    goodVals s.minSz (upStep s cur).1.held := by
  have h0 := (goodVals_dget hg (cur + 1)).1
  have hval : 0 ≤ dget s.held (cur + 1) + s.buyFill ∧
      (dget s.held (cur + 1) + s.buyFill = 0 ∨
        s.minSz ≤ dget s.held (cur + 1) + s.buyFill) :=
    ⟨by linarith, Or.inr (by linarith)⟩
  have hg1 : goodVals s.minSz (dset s.held (cur + 1) (dget s.held (cur + 1) + s.buyFill)) :=
    goodVals_dset hg _ hval
  rw [upStep_eq_specUpStep s cur hg hm hbf, specUpStep]
  split
  · exact goodVals_dpop hg1 cur
  · exact hg1

theorem upStep_nodup (s : GridCaseD) (cur : ℤ)
    (hnd : (dkeys s.held).Nodup) : (dkeys (upStep s cur).1.held).Nodup := by
  have h1 : (dkeys (dset s.held (cur + 1) (dget s.held (cur + 1) + s.buyFill))).Nodup :=
    nodup_dkeys_dset _ _ _ hnd
  simp only [upStep]
  split
  · split
    · exact nodup_dkeys_dpop _ _ (nodup_dkeys_dset _ _ _ h1)
    · exact nodup_dkeys_dset _ _ _ h1
  · exact h1

theorem downStep_nodup (s : GridCaseD) (cur : ℤ)
    (hnd : (dkeys s.held).Nodup) : (dkeys (downStep s cur).1.held).Nodup := by
  rw [downStep]
  split
  · exact nodup_dkeys_dset _ _ _ hnd
  · exact hnd

theorem downStep_lower (s : GridCaseD) (cur : ℤ) :
    (downStep s cur).1.lower = s.lower := by
  rw [downStep]
  split <;> rfl

theorem downStep_minSz (s : GridCaseD) (cur : ℤ) :
    (downStep s cur).1.minSz = s.minSz := by
  rw [downStep]
  split <;> rfl

theorem upWalk_eq_specUpWalk (s : GridCaseD) (cur : ℤ) (n : ℕ)
    (hg : goodVals s.minSz s.held) (hm : 0 < s.minSz)
    (hbf : s.minSz ≤ s.buyFill) :
    upWalk s cur n = specUpWalk s cur n := by
  induction n generalizing s cur with
  | zero => rfl
  | succ n ih =>
    rw [upWalk, specUpWalk, upStep_eq_specUpStep s cur hg hm hbf]
    rw [← upStep_eq_specUpStep s cur hg hm hbf]
    have hg' : goodVals (upStep s cur).1.minSz (upStep s cur).1.held := by
      rw [upStep_minSz]
      exact upStep_goodVals s cur hg hm hbf
    have hm' : 0 < (upStep s cur).1.minSz := by rw [upStep_minSz]; exact hm
    have hbf' : (upStep s cur).1.minSz ≤ (upStep s cur).1.buyFill := by
      rw [upStep_minSz, upStep_buyFill]; exact hbf
    rw [ih _ _ hg' hm' hbf', upStep_eq_specUpStep s cur hg hm hbf]

theorem upWalk_nodup (s : GridCaseD) (cur : ℤ) (n : ℕ)
    (hnd : (dkeys s.held).Nodup) : (dkeys (upWalk s cur n).1.held).Nodup := by
  induction n generalizing s cur with
  | zero => exact hnd
  | succ n ih => exact ih _ _ (upStep_nodup s cur hnd)

theorem downWalk_nodup (s : GridCaseD) (cur : ℤ) (n : ℕ)
    (hnd : (dkeys s.held).Nodup) : (dkeys (downWalk s cur n).1.held).Nodup := by
  induction n generalizing s cur with
  | zero => exact hnd
  | succ n ih => exact ih _ _ (downStep_nodup s cur hnd)

theorem flattenLoop_nodup (ks : List ℤ) (s : GridCaseD)
    (hnd : (dkeys s.held).Nodup) : (dkeys (flattenLoop s ks).1.held).Nodup := by
  induction ks generalizing s with
  | nil => exact hnd
  | cons lv rest ih =>
    simp only [flattenLoop]
    split
    · split
      · exact ih _ (nodup_dkeys_dpop _ _ (nodup_dkeys_dset _ _ _ hnd))
      · exact ih _ (nodup_dkeys_dset _ _ _ hnd)
    · exact ih _ hnd

theorem filter_pred_congr (m : ℚ) (h h' : List (ℤ × ℚ)) (lv : ℤ) (rest : List ℤ)
    (hlv : lv ∉ rest) (hsame : ∀ k, k ≠ lv → dget h' k = dget h k) :
    rest.filter (fun k => decide (0 < dget h' k ∧ m ≤ dget h' k))
      = rest.filter (fun k => decide (0 < dget h k ∧ m ≤ dget h k)) := by
  apply List.filter_congr
  intro k hk
  rw [hsame k (fun he => hlv (he ▸ hk))]

theorem flattenLoop_intents (ks : List ℤ) (s : GridCaseD) (hnd : ks.Nodup) :
    (flattenLoop s ks).2.map Intent.level =
      ks.filter (fun lv => decide (0 < dget s.held lv ∧ s.minSz ≤ dget s.held lv)) := by
  induction ks generalizing s with
  | nil => rfl
  | cons lv rest ih =>
    have hrest : rest.Nodup := hnd.of_cons
    have hlv : lv ∉ rest := (List.nodup_cons.mp hnd).1
    rw [List.filter_cons]
    simp only [flattenLoop]
    by_cases hq : 0 < dget s.held lv
    · rw [if_pos hq]
      by_cases hd : dget s.held lv < s.minSz
      · have hcond : ¬ (0 < dget s.held lv ∧ s.minSz ≤ dget s.held lv) :=
          fun hc => absurd hc.2 (not_le.mpr hd)
        rw [sell_qty, if_pos hd]
        have hnle : ¬ max 0 (dget s.held lv - ((0 : ℚ), ([] : List Intent)).1) ≤ 0 := by
          simp only [not_le]
          calc (0 : ℚ) < dget s.held lv := hq
          _ ≤ max 0 (dget s.held lv - ((0 : ℚ), ([] : List Intent)).1) := by
                simp [le_max_iff]
        rw [if_neg hnle]
        dsimp only
        rw [List.nil_append, ih _ hrest]
        dsimp only
        rw [filter_pred_congr s.minSz s.held _ lv rest hlv
          (fun k hk => dget_dset_ne _ _ _ _ (Ne.symm hk))]
        simp [hcond]
      · have hcond : 0 < dget s.held lv ∧ s.minSz ≤ dget s.held lv :=
          ⟨hq, not_lt.mp hd⟩
        rw [sell_qty, if_neg hd]
        have hle : max 0 (dget s.held lv - (dget s.held lv,
            [(⟨Side.sell, lv, dget s.held lv⟩ : Intent)]).1) ≤ 0 := by
          simp
        rw [if_pos hle]
        dsimp only
        rw [List.singleton_append, List.map_cons, ih _ hrest]
        dsimp only
        rw [filter_pred_congr s.minSz s.held _ lv rest hlv
          (fun k hk => by
            rw [dget_dpop_ne _ _ _ (Ne.symm hk), dget_dset_ne _ _ _ _ (Ne.symm hk)])]
        simp [hcond]
    · have hcond : ¬ (0 < dget s.held lv ∧ s.minSz ≤ dget s.held lv) :=
        fun hc => hq hc.1
      rw [if_neg hq, ih _ hrest]
      simp [hcond]

theorem on_price_nodup (s : GridCaseD) (px : ℚ)
    (hnd : (dkeys s.held).Nodup) : (dkeys (on_price s px).1.held).Nodup := by
  simp only [on_price]
  split
  · exact hnd
  · split
    · split
      · exact flattenLoop_nodup _ _ (upWalk_nodup _ _ _ hnd)
      · exact flattenLoop_nodup _ _ (downWalk_nodup _ _ _ hnd)
    · split
      · exact upWalk_nodup _ _ _ hnd
      · exact downWalk_nodup _ _ _ hnd

end GridCaseD


namespace GridCaseD

theorem price_to_level_nonneg (lower upper px : ℚ) :
    0 ≤ price_to_level lower upper px := by
  simp only [price_to_level]
  split
  · exact le_refl 0
  · split
    · norm_num
    · exact le_max_left _ _

theorem price_to_level_le_ten (lower upper px : ℚ) :
    price_to_level lower upper px ≤ 10 := by
  simp only [price_to_level]
  split
  · norm_num
  · split
    · exact le_refl 10
    · exact max_le (by norm_num) (min_le_left _ _)

theorem price_to_level_of_le_lower {lower upper px : ℚ} (h : px ≤ lower) :
    price_to_level lower upper px = 0 := by
  simp [price_to_level, h]

theorem price_to_level_of_ge_upper {lower upper px : ℚ} (hlu : lower < upper)
    (h : upper ≤ px) : price_to_level lower upper px = 10 := by
  have h1 : ¬ px ≤ lower := by linarith
  simp only [price_to_level, if_neg h1, if_pos h]

theorem price_to_level_interior {lower upper px : ℚ} (h1 : lower < px)
    (h2 : px < upper) :
    price_to_level lower upper px =
      max 0 (min 10 ⌊(px - lower) / (upper - lower) * 10⌋) := by
  simp only [price_to_level, if_neg (not_le.mpr h1), if_neg (not_le.mpr h2)]

end GridCaseD

namespace GridS

theorem pyRound_floor_or_succ (x : ℚ) :
    pyRound x = ⌊x⌋ ∨ pyRound x = ⌊x⌋ + 1 := by
  simp only [pyRound]
  split_ifs <;> simp

theorem pyRound_bounds (x : ℚ) (h0 : 0 < x) (h10 : x < 10) :
    0 ≤ pyRound x ∧ pyRound x ≤ 10 := by
  have hf0 : 0 ≤ ⌊x⌋ := Int.floor_nonneg.mpr (le_of_lt h0)
  have hf10 : ⌊x⌋ < 10 := Int.floor_lt.mpr (by exact_mod_cast h10)
  rcases pyRound_floor_or_succ x with he | he <;> rw [he] <;> omega

theorem level_of_bounds (gmin gmax px : ℚ) (h : gmin < gmax) :
    (0 ≤ level_of gmin gmax px ∧ level_of gmin gmax px ≤ 10) ∧
    (px ≤ gmin → level_of gmin gmax px = 0) ∧
    (gmax ≤ px → level_of gmin gmax px = 10) := by
  by_cases h1 : px ≤ gmin
  · rw [level_of, if_pos h1]
    refine ⟨⟨le_refl 0, by norm_num⟩, fun _ => rfl, fun hc => ?_⟩
    exact absurd (lt_of_lt_of_le h (le_trans hc h1)) (lt_irrefl gmin)
  · by_cases h2 : gmax ≤ px
    · rw [level_of, if_neg h1, if_pos h2]
      exact ⟨⟨by norm_num, le_refl 10⟩, fun hc => absurd hc h1, fun _ => rfl⟩
    · rw [level_of, if_neg h1, if_neg h2]
      push_neg at h1 h2
      have hpos : (0 : ℚ) < gmax - gmin := by linarith
      have hrel0 : 0 < (px - gmin) / (gmax - gmin) := div_pos (by linarith) hpos
      have hrel1 : (px - gmin) / (gmax - gmin) < 1 :=
        (div_lt_one hpos).mpr (by linarith)
      have hb := pyRound_bounds ((px - gmin) / (gmax - gmin) * 10)
        (by linarith) (by linarith)
      exact ⟨hb, fun hc => absurd hc (not_le.mpr h1), fun hc => absurd hc (not_le.mpr h2)⟩

end GridS

/-- C3: for `lower < upper`, both level mappings — the floor variant
`GridCaseD.price_to_level` and the nearest variant `GridS.level_of` —
always land in `[0, 10]` and map every price at or below `lower` to 0 and
at or above `upper` to 10; the floor variant on the interior agrees with
the spec's formula `floor((price - lower)/step)` clamped to `[0, 10]`,
where `step = (upper - lower)/10`. -/
theorem level_mapping_bounds_and_formula (lower upper px : ℚ) (h : lower < upper) :
    (0 ≤ GridCaseD.price_to_level lower upper px ∧
      GridCaseD.price_to_level lower upper px ≤ 10) ∧
    GridCaseD.price_to_level lower upper lower = 0 ∧
    GridCaseD.price_to_level lower upper upper = 10 ∧
    (px ≤ lower → GridCaseD.price_to_level lower upper px = 0) ∧
    (upper ≤ px → GridCaseD.price_to_level lower upper px = 10) ∧
    ((0 ≤ GridS.level_of lower upper px ∧ GridS.level_of lower upper px ≤ 10) ∧
      (px ≤ lower → GridS.level_of lower upper px = 0) ∧
      (upper ≤ px → GridS.level_of lower upper px = 10)) ∧
    (lower < px → px < upper →
      GridCaseD.price_to_level lower upper px = GridCaseD.spec_level lower upper px) := by
  refine ⟨⟨GridCaseD.price_to_level_nonneg lower upper px,
    GridCaseD.price_to_level_le_ten lower upper px⟩,
    GridCaseD.price_to_level_of_le_lower le_rfl,
    GridCaseD.price_to_level_of_ge_upper h le_rfl,
    fun hp => GridCaseD.price_to_level_of_le_lower hp,
    fun hp => GridCaseD.price_to_level_of_ge_upper h hp,
    GridS.level_of_bounds lower upper px h,
    fun h1 h2 => ?_⟩
  rw [GridCaseD.price_to_level_interior h1 h2, GridCaseD.spec_level]
  have hne : upper - lower ≠ 0 := by linarith
  have harg : (px - lower) / (upper - lower) * 10
      = (px - lower) / ((upper - lower) / 10) := by
    field_simp
  rw [harg, max_min_distrib_left]
  norm_num

/-- C3 witness: concrete instance at bounds 95/105 and price 100. -/
theorem level_mapping_bounds_and_formula_witness :
    (95 : ℚ) < 105 ∧
    ((0 ≤ GridCaseD.price_to_level 95 105 100 ∧
      GridCaseD.price_to_level 95 105 100 ≤ 10) ∧
    GridCaseD.price_to_level 95 105 95 = 0 ∧
    GridCaseD.price_to_level 95 105 105 = 10 ∧
    ((100 : ℚ) ≤ 95 → GridCaseD.price_to_level 95 105 100 = 0) ∧
    ((105 : ℚ) ≤ 100 → GridCaseD.price_to_level 95 105 100 = 10) ∧
    ((0 ≤ GridS.level_of 95 105 100 ∧ GridS.level_of 95 105 100 ≤ 10) ∧
      ((100 : ℚ) ≤ 95 → GridS.level_of 95 105 100 = 0) ∧
      ((105 : ℚ) ≤ 100 → GridS.level_of 95 105 100 = 10)) ∧
    ((95 : ℚ) < 100 → (100 : ℚ) < 105 →
      GridCaseD.price_to_level 95 105 100 = GridCaseD.spec_level 95 105 100)) :=
  ⟨by norm_num, level_mapping_bounds_and_formula 95 105 100 (by norm_num)⟩

/-- C10: for a fixed grid with `lower < upper`, the price-to-level
mapping is monotone non-decreasing in the price. -/
theorem price_level_monotone (lower upper p1 p2 : ℚ) (h : lower < upper)
    (hp : p1 ≤ p2) :
    GridCaseD.price_to_level lower upper p1 ≤ GridCaseD.price_to_level lower upper p2 := by
  rcases le_or_lt p1 lower with c1 | c1
  · rw [GridCaseD.price_to_level_of_le_lower c1]
    exact GridCaseD.price_to_level_nonneg lower upper p2
  · rcases le_or_lt upper p2 with c4 | c4
    · rw [GridCaseD.price_to_level_of_ge_upper h c4]
      exact GridCaseD.price_to_level_le_ten lower upper p1
    · rw [GridCaseD.price_to_level_interior c1 (lt_of_le_of_lt hp c4),
        GridCaseD.price_to_level_interior (lt_of_lt_of_le c1 hp) c4]
      have hpos : (0 : ℚ) < upper - lower := by linarith
      have hdiv : (p1 - lower) / (upper - lower) ≤ (p2 - lower) / (upper - lower) :=
        (div_le_div_iff_of_pos_right hpos).mpr (by linarith)
      have hfl : ⌊(p1 - lower) / (upper - lower) * 10⌋
          ≤ ⌊(p2 - lower) / (upper - lower) * 10⌋ :=
        Int.floor_le_floor (by nlinarith)
      exact max_le_max le_rfl (min_le_min le_rfl hfl)

/-- C10 witness: concrete monotone instance. -/
theorem price_level_monotone_witness :
    (95 : ℚ) < 105 ∧ (98 : ℚ) ≤ 103 ∧
    GridCaseD.price_to_level 95 105 98 ≤ GridCaseD.price_to_level 95 105 103 :=
  ⟨by norm_num, by norm_num, price_level_monotone 95 105 98 103 (by norm_num) (by norm_num)⟩

/-- C1 (amended): an `on_price` call that moves from the previous
interior level up to a higher interior level walks one level at a time
and, provided the ledger is dust-free (`goodVals`) and the buy fill is at
least the minimum lot, emits exactly the spec-side intents: per level
`next = cur + 1` a `Buy(next, unit)` followed, when the ledger holds a
positive quantity at `cur`, by `Sell(cur, heldQuantity(cur))`.  (Without
the dust-free hypothesis the Sell of a positive quantity below the
minimum lot is skipped — see the counterexample.) -/
theorem upward_walk_matches_spec (s : GridCaseD) (px : ℚ)
    (hprev : 0 < s.prev_level)
    (hup : s.prev_level < GridCaseD.price_to_level s.lower s.upper px)
    (hlt : GridCaseD.price_to_level s.lower s.upper px < 10)
    (hg : goodVals s.minSz s.held) (hm : 0 < s.minSz)
    (hbf : s.minSz ≤ s.buyFill) :
    (GridCaseD.on_price s px).2 =
      (GridCaseD.specUpWalk s s.prev_level
        (GridCaseD.price_to_level s.lower s.upper px - s.prev_level).toNat).2 := by
  have hne : ¬ GridCaseD.price_to_level s.lower s.upper px = s.prev_level := by omega
  have hb : ¬ (GridCaseD.price_to_level s.lower s.upper px = 0 ∨
      GridCaseD.price_to_level s.lower s.upper px = 10) := by
    push_neg
    omega
  simp only [GridCaseD.on_price, if_neg hne, if_pos hup, if_neg hb]
  rw [GridCaseD.upWalk_eq_specUpWalk _ _ _ hg hm hbf]

/-- C1 witness: the spec's walk-completeness instance `L_prev = 3`,
`L_new = 7` on bounds 95/105 — exactly one Buy+Sell pair per level
4, 5, 6, 7, in order. -/
theorem upward_walk_matches_spec_witness :
    ((0 : ℤ) < 3 ∧ GridCaseD.price_to_level 95 105 (1022/10) = 7 ∧
      goodVals (1/10) [(3, 1)]) ∧
    (GridCaseD.on_price ⟨95, 105, 1/10, 10, 1, [(3, 1)], 3⟩ (1022/10)).2 =
      (GridCaseD.specUpWalk ⟨95, 105, 1/10, 10, 1, [(3, 1)], 3⟩ 3 4).2 ∧
    (GridCaseD.on_price ⟨95, 105, 1/10, 10, 1, [(3, 1)], 3⟩ (1022/10)).2 =
      [⟨Side.buy, 4, 10⟩, ⟨Side.sell, 3, 1⟩, ⟨Side.buy, 5, 10⟩, ⟨Side.sell, 4, 1⟩,
       ⟨Side.buy, 6, 10⟩, ⟨Side.sell, 5, 1⟩, ⟨Side.buy, 7, 10⟩, ⟨Side.sell, 6, 1⟩] := by
  refine ⟨⟨by decide, by norm_num [GridCaseD.price_to_level], by norm_num [goodVals]⟩,
    ?_,
    by norm_num [GridCaseD.on_price, GridCaseD.price_to_level, GridCaseD.upWalk,
      GridCaseD.upStep, GridCaseD.sell_qty, dget, dfind, dset, dpop, dkeys]⟩
  have h := upward_walk_matches_spec ⟨95, 105, 1/10, 10, 1, [(3, 1)], 3⟩ (1022/10)
    (by decide) (by norm_num [GridCaseD.price_to_level])
    (by norm_num [GridCaseD.price_to_level]) (by norm_num [goodVals])
    (by norm_num) (by norm_num)
  refine h.trans ?_
  norm_num [GridCaseD.price_to_level, GridCaseD.specUpWalk, GridCaseD.specUpStep,
    dget, dfind, dset, dpop, dkeys]

/-- C1 counterexample: the claim demands `Sell(cur, heldQuantity(cur))`
whenever the ledger holds a positive quantity at `cur`, but with the
positive dust quantity 1/20 below `minSz = 1/10` held at level 3, the
interior 3→4 up-crossing emits only the Buy and no Sell at all. -/
theorem upward_walk_dust_counterexample :
    0 < dget [((3 : ℤ), (1/20 : ℚ))] 3 ∧
    dget [((3 : ℤ), (1/20 : ℚ))] 3 < 1/10 ∧
    GridCaseD.price_to_level 95 105 (199/2) = 4 ∧
    (GridCaseD.on_price ⟨95, 105, 1/10, 10, 1, [(3, 1/20)], 3⟩ (199/2)).2 =
      [⟨Side.buy, 4, 10⟩] := by
  refine ⟨by norm_num [dget, dfind], by norm_num [dget, dfind],
    by norm_num [GridCaseD.price_to_level], ?_⟩
  norm_num [GridCaseD.on_price, GridCaseD.price_to_level, GridCaseD.upWalk,
    GridCaseD.upStep, GridCaseD.sell_qty, dget, dfind, dset, dpop, dkeys]

/-- C2 (amended, `GridCaseD` and `GridManager`): a downward `on_price`
crossing to an interior level emits exactly the spec-side intents — a
`Buy(next, unit)` for a traversed level exactly when the ledger does not
already hold a position there — and every emitted intent is a Buy, so
nothing is sold on the way down.  (The `Grid` variant of
sol_usdt_success.py instead sells held levels on the way down — see the
counterexample.) -/
theorem downward_crossing_buys_only (s : GridCaseD) (px : ℚ)
    (hdown : GridCaseD.price_to_level s.lower s.upper px < s.prev_level)
    (h0 : GridCaseD.price_to_level s.lower s.upper px ≠ 0)
    (h10 : GridCaseD.price_to_level s.lower s.upper px ≠ 10) :
    (GridCaseD.on_price s px).2 =
      (GridCaseD.specDownWalk s s.prev_level
        (s.prev_level - GridCaseD.price_to_level s.lower s.upper px).toNat).2 ∧
    ∀ i ∈ (GridCaseD.on_price s px).2, i.side = Side.buy := by
  have hne : ¬ GridCaseD.price_to_level s.lower s.upper px = s.prev_level := by omega
  have hnup : ¬ s.prev_level < GridCaseD.price_to_level s.lower s.upper px := by omega
  have hb : ¬ (GridCaseD.price_to_level s.lower s.upper px = 0 ∨
      GridCaseD.price_to_level s.lower s.upper px = 10) := by
    push_neg
    omega
  simp only [GridCaseD.on_price, if_neg hne, if_neg hnup, if_neg hb]
  exact ⟨by rw [GridCaseD.downWalk_eq_specDownWalk],
    GridCaseD.downWalk_all_buys s s.prev_level _⟩

/-- C2 witness: an 8→5 down-crossing buys the unheld levels 7, 6, 5 and
sells nothing. -/
theorem downward_crossing_buys_only_witness :
    (GridCaseD.price_to_level 95 105 (501/5) = 5 ∧ (5 : ℤ) < 8) ∧
    ((GridCaseD.on_price ⟨95, 105, 1/10, 10, 1, [(8, 1)], 8⟩ (501/5)).2 =
      (GridCaseD.specDownWalk ⟨95, 105, 1/10, 10, 1, [(8, 1)], 8⟩ 8 3).2 ∧
    ∀ i ∈ (GridCaseD.on_price ⟨95, 105, 1/10, 10, 1, [(8, 1)], 8⟩ (501/5)).2,
      i.side = Side.buy) ∧
    (GridCaseD.on_price ⟨95, 105, 1/10, 10, 1, [(8, 1)], 8⟩ (501/5)).2 =
      [⟨Side.buy, 7, 10⟩, ⟨Side.buy, 6, 10⟩, ⟨Side.buy, 5, 10⟩] := by
  refine ⟨⟨by norm_num [GridCaseD.price_to_level], by decide⟩, ?_,
    by norm_num [GridCaseD.on_price, GridCaseD.price_to_level, GridCaseD.downWalk,
      GridCaseD.downStep, dget, dfind, dset, dpop, dkeys]⟩
  have h := downward_crossing_buys_only ⟨95, 105, 1/10, 10, 1, [(8, 1)], 8⟩ (501/5)
    (by norm_num [GridCaseD.price_to_level]) (by norm_num [GridCaseD.price_to_level])
    (by norm_num [GridCaseD.price_to_level])
  exact ⟨h.1.trans (by
    norm_num [GridCaseD.price_to_level, GridCaseD.specDownWalk, GridCaseD.specDownStep,
      dget, dfind, dset, dpop, dkeys]), h.2⟩

/-- C2 counterexample: in the sol_usdt_success.py variant, from the
freshly initialised grid at price 100 (level 5, holding level 5), the
down-crossing to interior level 4 emits `Sell(5, 1)` before buying level
4 — a Sell on the way down, contradicting the claim. -/
theorem downward_crossing_sell_counterexample :
    (GridS.on_price (some (1/100)) 100 1 (GridS.init 100 1 100).1 100).2 = [] ∧
    GridS.level_of (GridS.init 100 1 100).1.gmin (GridS.init 100 1 100).1.gmax 100 = 5 ∧
    GridS.level_of (GridS.init 100 1 100).1.gmin (GridS.init 100 1 100).1.gmax
      (9994/100) = 4 ∧
    (GridS.on_price (some (1/100)) 100 1
        (GridS.on_price (some (1/100)) 100 1 (GridS.init 100 1 100).1 100).1
        (9994/100)).2
      = [⟨Side.sell, 5, 1⟩, ⟨Side.buy, 4, 10⟩] := by
  refine ⟨?_, ?_, ?_, ?_⟩ <;>
    norm_num [GridS.on_price, GridS.init, GridS.level_of, GridS.pyRound,
      GridS.open_if_absent, GridS.close, GridS.closeList, GridS.close_all,
      dget, dfind, dset, dpop, dkeys]

/-- C4: once a grid is inactive (Closed), `Grid.on_price` is a complete
no-op — no intents, state unchanged — and `Grid._close_all` is exactly
what clears the activity flag when a boundary or stop is hit. -/
theorem closed_on_price_noop (rules : Option ℚ) (bal fill : ℚ) (s : GridS) (px : ℚ)
    (h : s.active = false) :
    GridS.on_price rules bal fill s px = (s, []) ∧
    (GridS.close_all rules s).1.active = false := by
  constructor
  · simp only [GridS.on_price, if_pos h]
  · simp only [GridS.close_all]

/-- C4 witness: a concrete closed grid ignores a price sample. -/
theorem closed_on_price_noop_witness :
    ((⟨997/10, 1003/10, [(5, ⟨1, 100⟩)], false⟩ : GridS).active = false) ∧
    GridS.on_price (some (1/100)) 100 1 ⟨997/10, 1003/10, [(5, ⟨1, 100⟩)], false⟩ 100
      = (⟨997/10, 1003/10, [(5, ⟨1, 100⟩)], false⟩, []) ∧
    (GridS.close_all (some (1/100)) ⟨997/10, 1003/10, [(5, ⟨1, 100⟩)], false⟩).1.active
      = false := by
  refine ⟨rfl, ?_⟩
  exact closed_on_price_noop (some (1/100)) 100 1 ⟨997/10, 1003/10, [(5, ⟨1, 100⟩)], false⟩
    100 rfl

/-- C5: starting from a freshly constructed `GridCaseD` instance, after
any sequence of `on_price` calls the ledger never holds two entries for
the same level: the key list of the held dict stays duplicate-free. -/
theorem ledger_no_double_entry (grid_range unit minSz buyFill center : ℚ)
    (ps : List ℚ) :
    (dkeys ((ps.foldl (fun s px => (GridCaseD.on_price s px).1)
        (GridCaseD.init grid_range unit minSz buyFill center)).held)).Nodup := by
  have hinit : (dkeys (GridCaseD.init grid_range unit minSz buyFill center).held).Nodup := by
    simp [GridCaseD.init, dset, dkeys]
  have hgen : ∀ s : GridCaseD, (dkeys s.held).Nodup →
      (dkeys ((ps.foldl (fun s px => (GridCaseD.on_price s px).1) s)).held).Nodup := by
    induction ps with
    | nil => exact fun s hs => hs
    | cons p t ih => exact fun s hs => ih _ (GridCaseD.on_price_nodup s p hs)
  exact hgen _ hinit

/-- C6 (amended): `GridCaseD.flatten_all` emits exactly one Sell per held
level whose quantity is positive and at least the minimum lot (positive
dust entries are skipped and retained), in strictly descending level
order; on a ledger holding levels {2,4,5} the sells come out as 5, 4, 2.
(The sol_po.py `_close_all_levels` variant iterates ascending instead —
see the counterexample.) -/
theorem flatten_descending_order (s : GridCaseD) (hnd : (dkeys s.held).Nodup) :
    (GridCaseD.flatten_all s).2.map Intent.level =
      (GridCaseD.sortedKeysDesc s.held).filter
        (fun lv => decide (0 < dget s.held lv ∧ s.minSz ≤ dget s.held lv)) ∧
    ((GridCaseD.flatten_all s).2.map Intent.level).Pairwise (· > ·) := by
  have hperm : (GridCaseD.sortedKeysDesc s.held).Perm (dkeys s.held) :=
    List.perm_insertionSort _ _
  have hnds : (GridCaseD.sortedKeysDesc s.held).Nodup := hperm.nodup_iff.mpr hnd
  have heq := GridCaseD.flattenLoop_intents (GridCaseD.sortedKeysDesc s.held) s hnds
  refine ⟨heq, ?_⟩
  rw [GridCaseD.flatten_all, heq]
  have hsorted : (GridCaseD.sortedKeysDesc s.held).Sorted (· ≥ ·) :=
    List.sorted_insertionSort _ _
  have hpw : (GridCaseD.sortedKeysDesc s.held).Pairwise (· > ·) :=
    (hsorted.and hnds).imp (fun hab => lt_of_le_of_ne hab.1 (Ne.symm hab.2))
  exact hpw.filter _

/-- C6 witness: flattening a ledger holding levels {2,4,5} (all
quantities above the minimum lot) sells 5, then 4, then 2. -/
theorem flatten_descending_order_witness :
    (dkeys [((2 : ℤ), (1 : ℚ)), (4, 1), (5, 1)]).Nodup ∧
    ((GridCaseD.flatten_all ⟨95, 105, 1/10, 10, 1, [(2, 1), (4, 1), (5, 1)], 5⟩).2.map
        Intent.level =
      (GridCaseD.sortedKeysDesc [((2 : ℤ), (1 : ℚ)), (4, 1), (5, 1)]).filter
        (fun lv => decide (0 < dget [((2 : ℤ), (1 : ℚ)), (4, 1), (5, 1)] lv ∧
          (1/10 : ℚ) ≤ dget [((2 : ℤ), (1 : ℚ)), (4, 1), (5, 1)] lv)) ∧
    ((GridCaseD.flatten_all ⟨95, 105, 1/10, 10, 1, [(2, 1), (4, 1), (5, 1)], 5⟩).2.map
        Intent.level).Pairwise (· > ·)) ∧
    (GridCaseD.flatten_all ⟨95, 105, 1/10, 10, 1, [(2, 1), (4, 1), (5, 1)], 5⟩).2.map
        Intent.level = [5, 4, 2] := by
  refine ⟨by decide, flatten_descending_order _ (by decide), ?_⟩
  norm_num [GridCaseD.flatten_all, GridCaseD.flattenLoop, GridCaseD.sortedKeysDesc,
    GridCaseD.sell_qty, List.insertionSort, List.orderedInsert,
    dget, dfind, dset, dpop, dkeys]

/-- C6 counterexample: the sol_po.py flatten (`_close_all_levels`) on a
grid holding levels {2,4,5} emits its sells in ASCENDING order 2, 4, 5,
not the claimed descending order 5, 4, 2. -/
theorem flatten_ascending_counterexample :
    (SolPo.close_all_levels (1/100) (1/100) (1/100)
      { usdt_each := 10, px_low := 100, px_high := 110
        level_prices := [100, 101, 102, 103, 104, 105, 106, 107, 108, 109, 110]
        levels_holding := {2, 4, 5}, last_level := 5, alive := true }).2.map Intent.level
      = [2, 4, 5] ∧
    ([2, 4, 5] : List ℤ) ≠ [5, 4, 2] := by
  refine ⟨?_, by decide⟩
  have hsort : (({2, 4, 5} : Finset ℤ).sort (· ≤ ·)) = [2, 4, 5] := by
    simp [Finset.sort_insert, Finset.sort_singleton]
  have h2 : (2 : ℤ) ∈ ({2, 4, 5} : Finset ℤ) := by decide
  have h4 : (4 : ℤ) ∈ (({2, 4, 5} : Finset ℤ).erase 2) := by decide
  have h5 : (5 : ℤ) ∈ ((({2, 4, 5} : Finset ℤ).erase 2).erase 4) := by decide
  have ht2 : Int.toNat 2 = 2 := rfl
  have ht4 : Int.toNat 4 = 4 := rfl
  have ht5 : Int.toNat 5 = 5 := rfl
  norm_num [SolPo.close_all_levels, SolPo.ensure_level_sold, SolPo.place_limit_order,
    SolPo.round_to_step, hsort, h2, h4, h5, ht2, ht4, ht5,
    List.getD_cons_zero, List.getD_cons_succ]

/-- C7 (amended): in balance-percentage mode the quote amount is
`max(balance * 10%, 5)`: it is always at least the (positive) minimum
notional — never zero or negative — and when the computed percentage
falls below the minimum notional it is silently floored UP to it rather
than the sizing being rejected; an order is still placed whenever the
lot-quantized size is positive.  The sol_usdt_success.py variant, by
contrast, does skip the open when the balance is below 10 USDT. -/
theorem sizing_floors_to_min_notional :
    (∀ bal : ℚ, 0 < GridP.usdt_amount bal ∧ 5 ≤ GridP.usdt_amount bal ∧
      (bal * (1/10) < 5 → GridP.usdt_amount bal = 5)) ∧
    (∀ (bal fill : ℚ) (s : GridS) (lvl : ℤ) (px : ℚ),
      bal < 10 → s.active = true → lvl ∉ dkeys s.positions →
      GridS.open_if_absent bal fill s lvl px = (s, [])) := by
  constructor
  · intro bal
    refine ⟨?_, le_max_right _ _, fun hlt => ?_⟩
    · calc (0 : ℚ) < 5 := by norm_num
      _ ≤ max (bal * (1/10)) 5 := le_max_right _ _
    · simp only [GridP.usdt_amount]
      exact max_eq_right (le_of_lt hlt)
  · intro bal fill s lvl px hbal hact hmem
    rw [GridS.open_if_absent, if_neg (by simp [hact]), if_neg hmem, if_pos hbal]

/-- C7 witness: balance 10, percentage 10%: the computed 1 USDT is below
the 5 USDT minimum notional and comes back floored to 5; the
sol_usdt_success.py variant with balance 5 skips the open. -/
theorem sizing_floors_to_min_notional_witness :
    ((10 : ℚ) * (1/10) < 5 ∧ 0 < GridP.usdt_amount 10 ∧ GridP.usdt_amount 10 = 5) ∧
    ((5 : ℚ) < 10 ∧
      GridS.open_if_absent 5 1 ⟨997/10, 1003/10, [], true⟩ 4 100
        = (⟨997/10, 1003/10, [], true⟩, [])) := by
  constructor
  · exact ⟨by norm_num, (sizing_floors_to_min_notional.1 10).1,
      (sizing_floors_to_min_notional.1 10).2.2 (by norm_num)⟩
  · exact ⟨by norm_num,
      sizing_floors_to_min_notional.2 5 1 ⟨997/10, 1003/10, [], true⟩ 4 100
        (by norm_num) rfl (by simp [dkeys])⟩

/-- C7 counterexample: with balance 10 the computed percentage amount
1 USDT is below the 5 USDT minimum notional, yet `calc_order_size`
returns the positive size 1 (at reference price 5 and lot 1/100): the
amount was silently rounded up and an order is placed — no rejection
happens. -/
theorem sizing_no_reject_counterexample :
    (10 : ℚ) * (1/10) < 5 ∧
    GridP.calc_order_size 10 5 (1/100) = 1 ∧
    (0 : ℚ) < GridP.calc_order_size 10 5 (1/100) := by
  refine ⟨by norm_num, ?_, ?_⟩ <;>
    norm_num [GridP.calc_order_size, GridP.usdt_amount, GridP.quantize_size,
      GridP.ratTrunc]

/-- C8 (amended): a sell attempt on a held quantity below the exchange
minimum lot places no sell order and does not fail the transition; the
sol_usdt_success.py `_close` also drops the dust entry from the ledger,
whereas `GridCaseD` merely skips the sell and keeps the dust entry. -/
theorem dust_sell_skipped :
    (∀ (m : ℚ) (s : GridS) (lvl : ℤ) (p : SPos),
      dfind s.positions lvl = some p → p.qty < m →
      GridS.close (some m) s lvl = ({ s with positions := dpop s.positions lvl }, [])) ∧
    (∀ (m : ℚ) (lvl : ℤ) (q : ℚ), q < m → GridCaseD.sell_qty m lvl q = (0, [])) ∧
    (∀ (s : GridCaseD) (cur : ℤ), 0 < dget s.held cur → dget s.held cur < s.minSz →
      (GridCaseD.upStep s cur).2 = [⟨Side.buy, cur + 1, s.unit⟩] ∧
      cur ∈ dkeys (GridCaseD.upStep s cur).1.held) := by
  refine ⟨?_, ?_, ?_⟩
  · intro m s lvl p hfind hq
    simp only [GridS.close, hfind, if_pos hq]
  · intro m lvl q hlt
    rw [GridCaseD.sell_qty, if_pos hlt]
  · intro s cur hpos hdust
    have hne : cur + 1 ≠ cur := by omega
    have hsame : dget (dset s.held (cur + 1) (dget s.held (cur + 1) + s.buyFill)) cur
        = dget s.held cur := dget_dset_ne _ _ _ _ hne
    have hq1 : 0 < dget (dset s.held (cur + 1) (dget s.held (cur + 1) + s.buyFill)) cur := by
      rw [hsame]
      exact hpos
    have hmem : cur ∈ dkeys (dset s.held (cur + 1) (dget s.held (cur + 1) + s.buyFill)) :=
      mem_dkeys_of_dget_pos _ _ hq1
    have hdust1 : dget (dset s.held (cur + 1) (dget s.held (cur + 1) + s.buyFill)) cur
        < s.minSz := by
      rw [hsame]
      exact hdust
    have hcond : cur ∈ dkeys (dset s.held (cur + 1) (dget s.held (cur + 1) + s.buyFill)) ∧
        0 < dget (dset s.held (cur + 1) (dget s.held (cur + 1) + s.buyFill)) cur :=
      ⟨hmem, hq1⟩
    have hnle : ¬ max 0 (dget (dset s.held (cur + 1) (dget s.held (cur + 1) + s.buyFill)) cur)
        ≤ 0 := by
      simp only [not_le]
      exact lt_max_iff.mpr (Or.inr hq1)
    simp only [GridCaseD.upStep, if_pos hcond, GridCaseD.sell_qty, if_pos hdust1, sub_zero,
      if_neg hnle]
    refine ⟨trivial, ?_⟩
    rw [dkeys_dset_mem _ _ _ hmem]
    exact hmem

/-- C8 witness: dust 1/20 below minimum lot 1/10 — the success-variant
`_close` drops the entry silently, `_sell_qty` places no order, and the
`GridCaseD` up-step keeps the dust entry while emitting only the Buy. -/
theorem dust_sell_skipped_witness :
    (dfind [((5 : ℤ), (⟨1/20, 100⟩ : SPos))] 5 = some ⟨1/20, 100⟩ ∧
      (1/20 : ℚ) < 1/10 ∧
      GridS.close (some (1/10)) ⟨997/10, 1003/10, [(5, ⟨1/20, 100⟩)], true⟩ 5
        = (⟨997/10, 1003/10, [], true⟩, [])) ∧
    GridCaseD.sell_qty (1/10) 3 (1/20) = (0, []) ∧
    ((GridCaseD.upStep ⟨95, 105, 1/10, 10, 1, [(3, 1/20)], 3⟩ 3).2
        = [⟨Side.buy, 4, 10⟩] ∧
      (3 : ℤ) ∈ dkeys (GridCaseD.upStep ⟨95, 105, 1/10, 10, 1, [(3, 1/20)], 3⟩ 3).1.held) := by
  refine ⟨⟨by norm_num [dfind], by norm_num, ?_⟩, ?_, ?_⟩
  · have h := dust_sell_skipped.1 (1/10) ⟨997/10, 1003/10, [(5, ⟨1/20, 100⟩)], true⟩ 5
      ⟨1/20, 100⟩ (by norm_num [dfind]) (by norm_num)
    refine h.trans ?_
    norm_num [dpop]
  · exact dust_sell_skipped.2.1 (1/10) 3 (1/20) (by norm_num)
  · exact dust_sell_skipped.2.2 ⟨95, 105, 1/10, 10, 1, [(3, 1/20)], 3⟩ 3
      (by norm_num [dget, dfind]) (by norm_num [dget, dfind])

/-- C8 counterexample: the claim says the dust entry is dropped from the
ledger, but in `GridCaseD` the positive dust quantity 1/20 < minSz = 1/10
at level 3 survives the 3→4 up-crossing: the sell is skipped AND the
entry stays in the ledger. -/
theorem dust_entry_kept_counterexample :
    (GridCaseD.on_price ⟨95, 105, 1/10, 10, 1, [(3, 1/20)], 3⟩ (199/2)).1.held
      = [(3, 1/20), (4, 1)] ∧
    (3 : ℤ) ∈ dkeys (GridCaseD.on_price ⟨95, 105, 1/10, 10, 1, [(3, 1/20)], 3⟩
      (199/2)).1.held := by
  have h : (GridCaseD.on_price ⟨95, 105, 1/10, 10, 1, [(3, 1/20)], 3⟩ (199/2)).1.held
      = [(3, 1/20), (4, 1)] := by
    norm_num [GridCaseD.on_price, GridCaseD.price_to_level, GridCaseD.upWalk,
      GridCaseD.upStep, GridCaseD.sell_qty, dget, dfind, dset, dpop, dkeys]
  exact ⟨h, by rw [h]; decide⟩

set_option maxHeartbeats 1600000 in
/-- C9 (amended): the direction that restores the ledger is DOWN then UP.
From an interior state holding exactly its current level `L`
(`4 ≤ L ≤ 9`, quantities at least the minimum lot), one `on_price` that
crosses down 3 levels followed by one that crosses back up 3 levels
returns the ledger to the original held-level set `{L}` (the down-leg
buys L-1, L-2, L-3 and the up-leg rolls each of them back off).  The
claimed up-then-down path does NOT restore the ledger — see the
counterexample. -/
theorem round_trip_down_up (lower upper minSz unit bf q p1 p2 : ℚ) (L : ℤ)
    (hL1 : 4 ≤ L) (hL2 : L ≤ 9) (hm : 0 < minSz) (hq : minSz ≤ q)
    (hbf : minSz ≤ bf)
    (hp1 : GridCaseD.price_to_level lower upper p1 = L - 3)
    (hp2 : GridCaseD.price_to_level lower upper p2 = L) :
    dkeys ((GridCaseD.on_price (GridCaseD.on_price
        ⟨lower, upper, minSz, unit, bf, [(L, q)], L⟩ p1).1 p2).1.held) = [L] := by
  have hq0 : (0 : ℚ) < q := lt_of_lt_of_le hm hq
  have hbf0 : (0 : ℚ) < bf := lt_of_lt_of_le hm hbf
  have h2bf0 : (0 : ℚ) < bf + bf := by linarith
  have hnq : ¬ q ≤ 0 := not_le.mpr hq0
  have hnbf : ¬ bf ≤ 0 := not_le.mpr hbf0
  have hnbf2 : ¬ bf + bf ≤ 0 := by linarith
  have hnd1 : ¬ bf < minSz := not_lt.mpr hbf
  have hnd2 : ¬ bf + bf < minSz := not_lt.mpr (by linarith)
  interval_cases L <;>
    (norm_num at hp1 hp2 ⊢) <;>
    simp [GridCaseD.on_price, GridCaseD.upWalk, GridCaseD.upStep,
      GridCaseD.downWalk, GridCaseD.downStep, GridCaseD.sell_qty,
      dget, dfind, dset, dpop, dkeys, hp1, hp2, hq0, hbf0, h2bf0, hnq, hnbf, hnbf2,
      hnd1, hnd2]

/-- C9 witness: concrete instance — grid 95/105, held {5}, price drops
to level 2 then recovers to level 5; afterwards exactly level 5 is held
again. -/
theorem round_trip_down_up_witness :
    (GridCaseD.price_to_level 95 105 (972/10) = 2 ∧
      GridCaseD.price_to_level 95 105 (501/5) = 5 ∧ (0 : ℚ) < 1/10 ∧
      (1/10 : ℚ) ≤ 1) ∧
    dkeys ((GridCaseD.on_price (GridCaseD.on_price
        ⟨95, 105, 1/10, 10, 1, [(5, 1)], 5⟩ (972/10)).1 (501/5)).1.held) = [5] := by
  refine ⟨⟨by norm_num [GridCaseD.price_to_level],
    by norm_num [GridCaseD.price_to_level], by norm_num, by norm_num⟩, ?_⟩
  exact round_trip_down_up 95 105 (1/10) 10 1 1 (972/10) (501/5) 5 (by norm_num)
    (by norm_num) (by norm_num) (by norm_num) (by norm_num)
    (by norm_num [GridCaseD.price_to_level]) (by norm_num [GridCaseD.price_to_level])

/-- C9 counterexample: the claimed direction (up 3 then down 3) does not
restore the ledger: starting from held = {5} at level 5, rising to level
8 and falling back to level 5 leaves levels {8, 7, 6, 5} held — the roll
up sold 5, 6, 7 but the way down re-bought 7, 6, 5 while keeping 8. -/
theorem round_trip_up_down_counterexample :
    GridCaseD.price_to_level 95 105 (207/2) = 8 ∧
    GridCaseD.price_to_level 95 105 (501/5) = 5 ∧
    dkeys ((GridCaseD.on_price (GridCaseD.on_price
        ⟨95, 105, 1/10, 10, 1, [(5, 1)], 5⟩ (207/2)).1 (501/5)).1.held)
      = [8, 7, 6, 5] ∧
    ([8, 7, 6, 5] : List ℤ).toFinset ≠ ([5] : List ℤ).toFinset := by
  refine ⟨by norm_num [GridCaseD.price_to_level],
    by norm_num [GridCaseD.price_to_level], ?_, by decide⟩
  norm_num [GridCaseD.on_price, GridCaseD.price_to_level, GridCaseD.upWalk,
    GridCaseD.upStep, GridCaseD.downWalk, GridCaseD.downStep, GridCaseD.sell_qty,
    dget, dfind, dset, dpop, dkeys]
